import Mathlib

/-!
Verification of the vision scanner core of `trackov` (src/vision/scanner.js)
against its natural-language specification.

The embedding is shallow: JS numbers are modelled as rationals `ℚ`
(every constant appearing in the scanner — 0.8, 0.9, 1.1, 1.2, 20, 64 —
is exactly representable and all arithmetic performed on them is exact,
so the rational model agrees with IEEE doubles on every value the code
computes), pixel coordinates and image dimensions as `ℤ`, and the opaque
OpenCV correlation step (`cv.matchTemplate` + `cv.minMaxLoc`) as an
oracle function supplied per template, mapping each scale factor to the
maximum of the correlation surface together with its location.
-/

namespace Trackov

/-- JS `Math.round` on a rational: round half toward positive infinity
(`Math.round(x) = ⌊x + 0.5⌋`). Used for `Math.round(template.width * scale)`
in `scanScreen`. -/
def jsRound (q : ℚ) : ℤ := ⌊q + 1 / 2⌋

/-- Result of `cv.minMaxLoc` on one correlation surface: the global maximum
value (`maxVal`) and its location (`maxLoc.x`, `maxLoc.y`). -/
structure MatchResult where
  maxVal : ℚ
  maxX : ℤ
  maxY : ℤ
deriving DecidableEq, Repr

/-- The fields of `bestForTemplate` that exist only once the JS object has
been updated at least once (`x`, `y`, `width`, `height`, `scale`). -/
structure BestData where
  x : ℤ
  y : ℤ
  width : ℤ
  height : ℤ
  scale : ℚ
deriving DecidableEq, Repr

/-- `bestForTemplate`: initialized in JS as `{ val: -1 }`, with the payload
fields absent (`data = none`) until the first update. -/
structure Best where
  val : ℚ
  data : Option BestData
deriving DecidableEq, Repr

/-- `const scales = [0.8, 0.9, 1.0, 1.1, 1.2]` — scale factors to check. -/
def scales : List ℚ := [8 / 10, 9 / 10, 1, 11 / 10, 12 / 10]

/-- `this.confidenceThreshold = 0.8`. -/
def confidenceThreshold : ℚ := 8 / 10

/-- One iteration of the inner scale loop of `Scanner.scanScreen`
(scanner.js lines 226-254): skip the scale if the rounded scaled template
would exceed the frame in either axis, otherwise correlate (via the
oracle) and update the running best on a strictly greater value. -/
def scaleStep (frameW frameH tw th : ℤ) (oracle : ℚ → MatchResult)
    (best : Best) (s : ℚ) : Best :=
  let sw := jsRound (tw * s)
  let sh := jsRound (th * s)
  if sw > frameW ∨ sh > frameH then best
  else
    let r := oracle s
    if best.val < r.maxVal then
      ⟨r.maxVal, some ⟨r.maxX, r.maxY, sw, sh, s⟩⟩
    else best

/-- The whole inner scale loop for one template: fold `scaleStep` over the
scale list starting from `{ val: -1 }`. -/
def bestForTemplate (frameW frameH tw th : ℤ) (oracle : ℚ → MatchResult) : Best :=
  scales.foldl (scaleStep frameW frameH tw th oracle) ⟨-1, none⟩

/-- The skip test of line 230, as a Boolean predicate on a scale: the scale
is tried iff the rounded scaled dimensions do not exceed the frame. -/
def triedPred (frameW frameH tw th : ℤ) (s : ℚ) : Bool :=
  !(decide (jsRound (tw * s) > frameW) || decide (jsRound (th * s) > frameH))

/-- The scales actually tried for a template: the members of `scales` whose
rounded scaled dimensions fit inside the frame. -/
def triedScales (frameW frameH tw th : ℤ) : List ℚ :=
  scales.filter (triedPred frameW frameH tw th)

/-- One entry of `this.templatesCache`: the grayscale template buffer is
irrelevant to the control flow (it is consumed only by the correlation
oracle), so an entry is its stored `width` and `height` (both 64 after the
`sharp(...).resize(64, 64)` normalization, but kept general). The cache key
(`itemId`) is carried alongside as the first component of a pair. -/
structure TemplateEntry where
  width : ℤ
  height : ℤ
deriving DecidableEq, Repr

/-- One element of the `matches` array pushed in `scanScreen`
(lines 257-264): `{ itemId, x, y, width, height, confidence }`. -/
structure Detection where
  itemId : String
  x : ℤ
  y : ℤ
  width : ℤ
  height : ℤ
  confidence : ℚ
deriving DecidableEq, Repr

/-- The per-template emission of `scanScreen` (lines 256-266): after the
scale loop, push a detection iff the best value reached the confidence
threshold. The `none` branch mirrors the JS object's payload fields being
absent; it is unreachable when the threshold test passes, because the
initial `val` is `-1` (`bestForTemplate_data_none`). -/
def detectionsFor (frameW frameH : ℤ) (oracle : String → ℚ → MatchResult)
    (t : String × TemplateEntry) : List Detection :=
  let b := bestForTemplate frameW frameH t.2.width t.2.height (oracle t.1)
  if confidenceThreshold ≤ b.val then
    match b.data with
    | some d => [⟨t.1, d.x, d.y, d.width, d.height, b.val⟩]
    | none => []
  else []

/-- The raw `matches` array of one scan: the per-template loop of
lines 223-267 over the templates cache, in cache (insertion) order. -/
def scanMatches (frameW frameH : ℤ) (cache : List (String × TemplateEntry))
    (oracle : String → ℚ → MatchResult) : List Detection :=
  cache.flatMap (detectionsFor frameW frameH oracle)

/-- Horizontal center of a detection's bounding box:
`match.x + match.width / 2` (line 293). -/
def centerX (d : Detection) : ℚ := d.x + d.width / 2

/-- Vertical center of a detection's bounding box:
`match.y + match.height / 2` (line 294). -/
def centerY (d : Detection) : ℚ := d.y + d.height / 2

/-- The overlap test of `removeDuplicates` (lines 291-296): centers closer
than 20px in both axes. -/
def overlapsB (e m : Detection) : Bool :=
  decide (|centerX e - centerX m| < 20) && decide (|centerY e - centerY m| < 20)

/-- One step of the greedy walk of `removeDuplicates` (lines 290-301):
accept `m` iff no already-accepted detection overlaps it. -/
def dedupStep (unique : List Detection) (m : Detection) : List Detection :=
  if unique.any (fun e => overlapsB e m) then unique else unique ++ [m]

/-- Descending-confidence comparison used by
`matches.sort((a, b) => b.confidence - a.confidence)` (line 287). -/
def confGE (a b : Detection) : Prop := b.confidence ≤ a.confidence

instance : DecidableRel confGE := fun a b => inferInstanceAs (Decidable (_ ≤ _))

instance : IsTotal Detection confGE := ⟨fun a b => le_total b.confidence a.confidence⟩

instance : IsTrans Detection confGE := ⟨fun _ _ _ h1 h2 => le_trans h2 h1⟩

/-- `matches.sort((a, b) => b.confidence - a.confidence)`: a stable sort by
descending confidence (JS `Array.prototype.sort` is stable; insertion sort
is stable, so it computes the same list). -/
def sortByConfDesc (ms : List Detection) : List Detection :=
  ms.insertionSort confGE

/-- `Scanner.removeDuplicates` (lines 286-304): sort by confidence
descending, then greedily keep each detection whose center is not within
the 20px tolerance (in both axes) of an already-kept one. -/
def removeDuplicates (ms : List Detection) : List Detection :=
  (sortByConfDesc ms).foldl dedupStep []

/-- Concrete correlation oracle used by witnesses: peak 0.9 at scale 0.8,
value 0.1 elsewhere. -/
def w1Oracle : ℚ → MatchResult :=
  fun s => if s = 8 / 10 then ⟨9 / 10, 10, 20⟩ else ⟨1 / 10, 0, 0⟩

/-- Two detections are spatially separated when their centers differ by at
least 20px in the x axis or in the y axis (the negation of the overlap test
of lines 293-295). -/
def separated (a b : Detection) : Prop :=
  20 ≤ |centerX a - centerX b| ∨ 20 ≤ |centerY a - centerY b|

/-- Synthetic detection at center (105, 105), confidence 0.9. -/
def dupA : Detection := ⟨"a", 100, 100, 10, 10, 9 / 10⟩

/-- Synthetic detection at center (110, 105) — 5px from `dupA` — with the
lower confidence 0.8. -/
def dupB : Detection := ⟨"b", 105, 100, 10, 10, 8 / 10⟩

/-- Synthetic detection at center (5, 5), confidence 0.9. -/
def farC : Detection := ⟨"c", 0, 0, 10, 10, 9 / 10⟩

/-- Synthetic detection at center (55, 5) — 50px from `farC` — with
confidence 0.8. -/
def farD : Detection := ⟨"d", 50, 0, 10, 10, 8 / 10⟩

/-- JS `String.prototype.endsWith`, on the character sequence. (Lean's
built-in `String.endsWith` is byte-position based and does not reduce in
the kernel, so the equivalent character-list form is used.) -/
def strEndsWith (s suf : String) : Bool := List.isSuffixOf suf.toList s.toList

/-- Drop the last `n` characters of a string. -/
def strDropRight (s : String) (n : ℕ) : String :=
  ⟨s.toList.take (s.toList.length - n)⟩

/-- The image-file filter of `loadTemplates` (line 110):
`f.endsWith('.webp') || f.endsWith('.png')`. -/
def isImageFile (f : String) : Bool := strEndsWith f ".webp" || strEndsWith f ".png"

/-- `path.basename(file, path.extname(file))` (line 121) for the files kept
by the image filter: strip the `.webp`/`.png` suffix. Node's `extname`
treats the leading dot of a dotfile as part of the name, not an extension,
so the exact file names `.webp` and `.png` are their own base names. -/
def baseId (f : String) : String :=
  if f = ".webp" ∨ f = ".png" then f
  else if strEndsWith f ".webp" then strDropRight f 5
  else if strEndsWith f ".png" then strDropRight f 4
  else f

/-- JS `Map.set` on the insertion-ordered cache: overwrite the value in
place when the key already exists (keeping its insertion position), append
a new entry otherwise. -/
def mapSet (m : List (String × TemplateEntry)) (k : String) (v : TemplateEntry) :
    List (String × TemplateEntry) :=
  if m.any (fun p => p.1 == k) then
    m.map (fun p => if p.1 == k then (k, v) else p)
  else m ++ [(k, v)]

/-- Outcome of `loadTemplates`: the final `templatesCache`, the returned
count (`this.templatesCache.size`, line 156), and the number of per-file
failure warnings logged (line 151). -/
structure LoadResult where
  cache : List (String × TemplateEntry)
  count : ℕ
  warnings : ℕ
deriving DecidableEq, Repr

/-- Body of the per-file loop of `loadTemplates` (lines 119-153): decode the
file (the sharp → 64×64 → grayscale pipeline, summarized by the `decode`
oracle) and cache it under its base name, or log a warning and continue. -/
def loadStep (decode : String → Option TemplateEntry)
    (acc : List (String × TemplateEntry) × ℕ) (f : String) :
    List (String × TemplateEntry) × ℕ :=
  match decode f with
  | some t => (mapSet acc.1 (baseId f) t, acc.2)
  | none => (acc.1, acc.2 + 1)

/-- `Scanner.loadTemplates` (lines 102-161), given the directory listing
`files` and the per-file decode outcome: filter image files, return 0
immediately when there are none, otherwise load each file in order and
return `templatesCache.size`. -/
def loadTemplates (cache0 : List (String × TemplateEntry)) (files : List String)
    (decode : String → Option TemplateEntry) : LoadResult :=
  let imageFiles := files.filter isImageFile
  if imageFiles.isEmpty then ⟨cache0, 0, 0⟩
  else
    let r := imageFiles.foldl (loadStep decode) (cache0, 0)
    ⟨r.1, r.1.length, r.2⟩

/-- The value cached for key `k` after processing `fs`: the decode result of
the last decodable file in `fs` whose base name is `k`, if any. -/
def lastSet (decode : String → Option TemplateEntry) :
    List String → String → Option TemplateEntry
  | [], _ => none
  | f :: fs, k =>
    match lastSet decode fs k with
    | some t => some t
    | none => if baseId f = k then decode f else none

/-- The cache keys appended (in first-occurrence order) by processing `fs`
on top of a cache whose key list is `ks`. -/
def newKeys (decode : String → Option TemplateEntry) :
    List String → List String → List String
  | _, [] => []
  | ks, f :: fs =>
    match decode f with
    | some _ =>
      if baseId f ∈ ks then newKeys decode ks fs
      else baseId f :: newKeys decode (ks ++ [baseId f]) fs
    | none => newKeys decode ks fs

/-- One captured frame, reduced to what the matcher consumes: the grayscale
buffer's dimensions (`screenGray.cols`/`screenGray.rows`). -/
structure Frame where
  width : ℤ
  height : ℤ
deriving DecidableEq, Repr

/-- The environment of one `scanScreen` call: the outcome of each effectful
stage. `cvInit` is `ensureOpenCV`; `files`/`decode` feed the lazy
`loadTemplates`; `capture` is `captureScreen` (which throws when
`desktopCapturer` yields no sources); `oracle` is the correlation result
per template id and scale; `matchThrows` stands for an exception raised
anywhere inside the matching/dedup region of the `try` block; `elapsedMs`
is the `Date.now() - startTime` difference observed at the end. -/
structure ScanEnv where
  cvInit : Except String Unit
  files : List String
  decode : String → Option TemplateEntry
  capture : Except String Frame
  oracle : String → ℚ → MatchResult
  matchThrows : Bool
  elapsedMs : ℤ

/-- The mutable scanner instance state touched by `scanScreen`:
`templatesCache` and `isScanning`. -/
structure ScannerState where
  templatesCache : List (String × TemplateEntry)
  isScanning : Bool
deriving DecidableEq, Repr

/-- Everything observable about one `scanScreen` call: the final instance
state, the value returned to the caller (an `Except` because the `async`
function could in principle reject — the `catch` block decides whether it
ever does), the number of capture attempts started, and the duration
logged by the `🏁 Scan complete` line (`none` when that line is never
reached). -/
structure ScanOutcome where
  state : ScannerState
  result : Except String (List Detection)
  captures : ℕ
  loggedDurationMs : Option ℤ

/-- `Scanner.scanScreen` (lines 194-284): reject immediately when a scan is
in flight; otherwise set the flag, run `ensureOpenCV`, lazily load the
templates when the cache is empty, capture, match, dedup; any exception is
caught and turned into an empty result (lines 278-280); the flag is cleared
in the `finally` block (lines 281-283) on every path. -/
def scanScreenRun (st : ScannerState) (env : ScanEnv) : ScanOutcome :=
  if st.isScanning then ⟨st, Except.ok [], 0, none⟩
  else
    let st1 : ScannerState := { st with isScanning := true }
    match env.cvInit with
    | Except.error _ =>
      ⟨{ st1 with isScanning := false }, Except.ok [], 0, none⟩
    | Except.ok _ =>
      let st2 : ScannerState :=
        if st1.templatesCache.isEmpty then
          { st1 with templatesCache :=
              (loadTemplates st1.templatesCache env.files env.decode).cache }
        else st1
      match env.capture with
      | Except.error _ =>
        ⟨{ st2 with isScanning := false }, Except.ok [], 1, none⟩
      | Except.ok frame =>
        if env.matchThrows then
          ⟨{ st2 with isScanning := false }, Except.ok [], 1, none⟩
        else
          ⟨{ st2 with isScanning := false },
            Except.ok (removeDuplicates
              (scanMatches frame.width frame.height st2.templatesCache env.oracle)),
            1, some env.elapsedMs⟩

/-- The template cache a scan matches against: the stored cache, or the
lazily loaded one when the cache was empty (lines 207-209). -/
def effectiveCache (st : ScannerState) (env : ScanEnv) :
    List (String × TemplateEntry) :=
  if st.templatesCache.isEmpty then
    (loadTemplates st.templatesCache env.files env.decode).cache
  else st.templatesCache

/-- A benign concrete environment for witnesses: OpenCV initializes, the
catalog holds one decodable file, capture yields a 1920×1080 frame, the
correlation oracle is `w1Oracle` for every template, nothing throws, and
the scan takes 250ms. -/
def wEnv : ScanEnv :=
  ⟨Except.ok (), ["kappa.png"], fun _ => some ⟨64, 64⟩, Except.ok ⟨1920, 1080⟩,
    fun _ => w1Oracle, false, 250⟩

/-- `wEnv` with a failing capture (`desktopCapturer` returned no sources). -/
def wEnvCapFail : ScanEnv :=
  ⟨Except.ok (), ["kappa.png"], fun _ => some ⟨64, 64⟩,
    Except.error "No screen sources available", fun _ => w1Oracle, false, 250⟩

/-- `wEnv`, but the scan happens to take 999ms instead of 250ms. -/
def wEnvSlow : ScanEnv := { wEnv with elapsedMs := 999 }

/-- Loop invariant of the scale loop, relative to the prefix `pre` of scales
processed so far: either the best is still the initial `{ val: -1 }` and no
tried scale produced a value above `-1`, or the best carries the data of a
tried scale whose value is maximal among the tried prefix, strictly beating
every earlier (smaller) tried scale. -/
def ScanInv (frameW frameH tw th : ℤ) (oracle : ℚ → MatchResult)
    (pre : List ℚ) (b : Best) : Prop :=
  (b.val = -1 ∧ b.data = none ∧
    ∀ s ∈ pre.filter (triedPred frameW frameH tw th), (oracle s).maxVal ≤ -1)
  ∨ (∃ d, b.data = some d
      ∧ d.scale ∈ pre.filter (triedPred frameW frameH tw th)
      ∧ b.val = (oracle d.scale).maxVal
      ∧ d.x = (oracle d.scale).maxX ∧ d.y = (oracle d.scale).maxY
      ∧ d.width = jsRound (tw * d.scale) ∧ d.height = jsRound (th * d.scale)
      ∧ (∀ s ∈ pre.filter (triedPred frameW frameH tw th), (oracle s).maxVal ≤ b.val)
      ∧ (∀ s ∈ pre.filter (triedPred frameW frameH tw th),
          s < d.scale → (oracle s).maxVal < b.val))

theorem scanInv_nil (frameW frameH tw th : ℤ) (oracle : ℚ → MatchResult) :
    ScanInv frameW frameH tw th oracle [] ⟨-1, none⟩ := by
  left
  refine ⟨rfl, rfl, ?_⟩
  intro s hs
  simp at hs

theorem scanInv_step (frameW frameH tw th : ℤ) (oracle : ℚ → MatchResult)
    (pre : List ℚ) (b : Best) (s : ℚ)
    (hinv : ScanInv frameW frameH tw th oracle pre b)
    (hlt : ∀ x ∈ pre, x < s) :
    ScanInv frameW frameH tw th oracle (pre ++ [s])
      (scaleStep frameW frameH tw th oracle b s) := by
  have hfilter : (pre ++ [s]).filter (triedPred frameW frameH tw th)
      = pre.filter (triedPred frameW frameH tw th)
        ++ [s].filter (triedPred frameW frameH tw th) := by
    rw [List.filter_append]
  by_cases hskip : jsRound (tw * s) > frameW ∨ jsRound (th * s) > frameH
  · -- scale skipped: best unchanged, filter unchanged
    have hstep : scaleStep frameW frameH tw th oracle b s = b := by
      simp [scaleStep, hskip]
    have hsf : [s].filter (triedPred frameW frameH tw th) = [] := by
      simp [triedPred]
      omega
    rw [hstep]
    rcases hinv with ⟨h1, h2, h3⟩ | ⟨d, h1, h2, h3, h4, h5, h6, h7, h8, h9⟩
    · left
      refine ⟨h1, h2, ?_⟩
      rw [hfilter, hsf, List.append_nil]
      exact h3
    · right
      refine ⟨d, h1, ?_, h3, h4, h5, h6, h7, ?_, ?_⟩ <;>
        rw [hfilter, hsf, List.append_nil]
      · exact h2
      · exact h8
      · exact h9
  · -- scale tried
    have hsf : [s].filter (triedPred frameW frameH tw th) = [s] := by
      simp [triedPred]
      omega
    have hmem : ∀ x, x ∈ (pre ++ [s]).filter (triedPred frameW frameH tw th) ↔
        x ∈ pre.filter (triedPred frameW frameH tw th) ∨ x = s := by
      intro x
      rw [hfilter, hsf, List.mem_append, List.mem_singleton]
    by_cases hup : b.val < (oracle s).maxVal
    · -- best updated at scale s
      have hstep : scaleStep frameW frameH tw th oracle b s
          = ⟨(oracle s).maxVal,
             some ⟨(oracle s).maxX, (oracle s).maxY, jsRound (tw * s), jsRound (th * s), s⟩⟩ := by
        simp [scaleStep, hskip, hup]
      rw [hstep]
      right
      refine ⟨_, rfl, ?_, rfl, rfl, rfl, rfl, rfl, ?_, ?_⟩
      · exact (hmem s).2 (Or.inr rfl)
      · intro t ht
        rcases (hmem t).1 ht with h | h
        · -- every previously tried scale is ≤ old best < new value
          have : (oracle t).maxVal ≤ b.val := by
            rcases hinv with ⟨h1, _, h3⟩ | ⟨d, _, _, _, _, _, _, _, h8, _⟩
            · rw [h1]; exact h3 t h
            · exact h8 t h
          exact le_of_lt (lt_of_le_of_lt this hup)
        · subst h; exact le_refl _
      · intro t ht htlt
        rcases (hmem t).1 ht with h | h
        · have : (oracle t).maxVal ≤ b.val := by
            rcases hinv with ⟨h1, _, h3⟩ | ⟨d, _, _, _, _, _, _, _, h8, _⟩
            · rw [h1]; exact h3 t h
            · exact h8 t h
          exact lt_of_le_of_lt this hup
        · subst h; exact absurd htlt (lt_irrefl _)
    · -- value not strictly greater: best unchanged
      have hstep : scaleStep frameW frameH tw th oracle b s = b := by
        simp [scaleStep, hskip, hup]
      rw [hstep]
      have hvs : (oracle s).maxVal ≤ b.val := le_of_not_lt hup
      rcases hinv with ⟨h1, h2, h3⟩ | ⟨d, h1, h2, h3, h4, h5, h6, h7, h8, h9⟩
      · left
        refine ⟨h1, h2, ?_⟩
        intro t ht
        rcases (hmem t).1 ht with h | h
        · exact h3 t h
        · subst h; rw [h1] at hvs; exact hvs
      · right
        refine ⟨d, h1, (hmem d.scale).2 (Or.inl h2), h3, h4, h5, h6, h7, ?_, ?_⟩
        · intro t ht
          rcases (hmem t).1 ht with h | h
          · exact h8 t h
          · subst h; exact hvs
        · intro t ht htlt
          rcases (hmem t).1 ht with h | h
          · exact h9 t h htlt
          · subst h
            -- s comes after every element of pre, so s < d.scale is impossible
            have hds : d.scale ∈ pre := List.mem_of_mem_filter h2
            exact absurd (lt_trans (hlt d.scale hds) htlt) (lt_irrefl _)

/-- The invariant holds of the completed scale loop. -/
theorem scanInv_bestForTemplate (frameW frameH tw th : ℤ) (oracle : ℚ → MatchResult) :
    ScanInv frameW frameH tw th oracle scales
      (bestForTemplate frameW frameH tw th oracle) := by
  have s1 := scanInv_step frameW frameH tw th oracle [] ⟨-1, none⟩ (8 / 10)
    (scanInv_nil frameW frameH tw th oracle) (by intro x hx; simp at hx)
  have s2 := scanInv_step frameW frameH tw th oracle ([] ++ [8 / 10]) _ (9 / 10)
    s1 (by intro x hx; simp at hx; rw [hx]; norm_num)
  have s3 := scanInv_step frameW frameH tw th oracle (([] ++ [8 / 10]) ++ [9 / 10]) _ 1
    s2 (by intro x hx; simp at hx; rcases hx with h | h <;> rw [h] <;> norm_num)
  have s4 := scanInv_step frameW frameH tw th oracle
    ((([] ++ [8 / 10]) ++ [9 / 10]) ++ [1]) _ (11 / 10)
    s3 (by intro x hx; simp at hx; rcases hx with h | h | h <;> rw [h] <;> norm_num)
  have s5 := scanInv_step frameW frameH tw th oracle
    (((([] ++ [8 / 10]) ++ [9 / 10]) ++ [1]) ++ [11 / 10]) _ (12 / 10)
    s4 (by intro x hx; simp at hx; rcases hx with h | h | h | h <;> rw [h] <;> norm_num)
  have hlist : (((([] ++ [8 / 10]) ++ [9 / 10]) ++ [1]) ++ [11 / 10]) ++ [12 / 10]
      = scales := by simp [scales]
  rw [hlist] at s5
  have hfold : bestForTemplate frameW frameH tw th oracle
      = scaleStep frameW frameH tw th oracle
          (scaleStep frameW frameH tw th oracle
            (scaleStep frameW frameH tw th oracle
              (scaleStep frameW frameH tw th oracle
                (scaleStep frameW frameH tw th oracle ⟨-1, none⟩ (8 / 10))
                (9 / 10)) 1) (11 / 10)) (12 / 10) := by
    simp [bestForTemplate, scales, List.foldl]
  rw [hfold]
  exact s5

/-- If the best was never updated, its value is the initial `-1`. -/
theorem bestForTemplate_data_none (frameW frameH tw th : ℤ) (oracle : ℚ → MatchResult)
    (h : (bestForTemplate frameW frameH tw th oracle).data = none) :
    (bestForTemplate frameW frameH tw th oracle).val = -1 := by
  rcases scanInv_bestForTemplate frameW frameH tw th oracle with ⟨h1, _, _⟩ | ⟨d, h1, _⟩
  · exact h1
  · rw [h] at h1; exact absurd h1 (by simp)

/-- C1 (amended): for every template and frame, the matcher tries exactly
the scales in the ordered set {0.8, 0.9, 1.0, 1.1, 1.2} whose rounded scaled
dimensions fit inside the frame (`triedScales`), and the best match carries
the value, location, scale, width and height of the maximal correlation over
those tried scales, ties broken in favor of the first-encountered (lower)
scale; the width/height are the canonical template dimensions times the
winning scale, rounded to the nearest integer (`Math.round`), not the exact
product. -/
theorem scanScreen_best_match (frameW frameH tw th : ℤ) (oracle : ℚ → MatchResult)
    (d : BestData) (h : (bestForTemplate frameW frameH tw th oracle).data = some d) :
    d.scale ∈ triedScales frameW frameH tw th
    ∧ (bestForTemplate frameW frameH tw th oracle).val = (oracle d.scale).maxVal
    ∧ d.x = (oracle d.scale).maxX ∧ d.y = (oracle d.scale).maxY
    ∧ d.width = jsRound (tw * d.scale) ∧ d.height = jsRound (th * d.scale)
    ∧ (∀ s ∈ triedScales frameW frameH tw th, (oracle s).maxVal ≤ (oracle d.scale).maxVal)
    ∧ (∀ s ∈ triedScales frameW frameH tw th,
        s < d.scale → (oracle s).maxVal < (oracle d.scale).maxVal) := by
  rcases scanInv_bestForTemplate frameW frameH tw th oracle with
    ⟨_, h2, _⟩ | ⟨d', h1, h2, h3, h4, h5, h6, h7, h8, h9⟩
  · rw [h] at h2; exact absurd h2 (by simp)
  · rw [h] at h1
    have hd : d' = d := by injection h1 with h1e; exact h1e.symm
    subst hd
    rw [h3] at h8 h9
    exact ⟨h2, h3, h4, h5, h6, h7, h8, h9⟩

theorem scanScreen_best_match_witness :
    (bestForTemplate 1920 1080 64 64 w1Oracle).data = some ⟨10, 20, 51, 51, 8 / 10⟩
    ∧ (8 / 10 : ℚ) ∈ triedScales 1920 1080 64 64
    ∧ (51 : ℤ) = jsRound (64 * (8 / 10)) := by
  have hdata : (bestForTemplate 1920 1080 64 64 w1Oracle).data
      = some ⟨10, 20, 51, 51, 8 / 10⟩ := by
    norm_num [bestForTemplate, scales, scaleStep, jsRound, w1Oracle, List.foldl]
  have h := scanScreen_best_match 1920 1080 64 64 w1Oracle ⟨10, 20, 51, 51, 8 / 10⟩ hdata
  exact ⟨hdata, h.1, h.2.2.2.2.1⟩

/-- C1 counterexample: the claim's final clause — "the detection's
width/height equal the canonical template dimensions times the winning
scale" — is false as stated: with a 64×64 template and the best score at
scale 0.8, the emitted width is `Math.round(64 · 0.8) = 51`, while
`64 · 0.8 = 51.2`. -/
theorem scanScreen_best_width_rounded :
    (bestForTemplate 1920 1080 64 64 w1Oracle).data.map BestData.width = some 51
    ∧ (bestForTemplate 1920 1080 64 64 w1Oracle).data.map BestData.scale = some (8 / 10)
    ∧ ((51 : ℚ) ≠ 64 * (8 / 10)) := by
  have hdata : (bestForTemplate 1920 1080 64 64 w1Oracle).data
      = some ⟨10, 20, 51, 51, 8 / 10⟩ := by
    norm_num [bestForTemplate, scales, scaleStep, jsRound, w1Oracle, List.foldl]
  rw [hdata]
  refine ⟨rfl, rfl, by norm_num⟩

/-- A template whose best value misses the threshold emits nothing. -/
theorem detectionsFor_eq_nil (frameW frameH : ℤ) (oracle : String → ℚ → MatchResult)
    (t : String × TemplateEntry)
    (h : (bestForTemplate frameW frameH t.2.width t.2.height (oracle t.1)).val
          < confidenceThreshold) :
    detectionsFor frameW frameH oracle t = [] := by
  simp [detectionsFor, not_le.2 h]

/-- C2: a detection is emitted for a template iff its best correlation value
over the tried scales is ≥ the acceptance threshold 0.8; a template below
the threshold contributes no detection, and if every template is below the
threshold the raw match list is empty. -/
theorem scanScreen_threshold (frameW frameH : ℤ)
    (cache : List (String × TemplateEntry)) (oracle : String → ℚ → MatchResult)
    (hnd : (cache.map Prod.fst).Nodup) (t : String × TemplateEntry) (ht : t ∈ cache) :
    ((∃ dt ∈ scanMatches frameW frameH cache oracle, dt.itemId = t.1) ↔
      confidenceThreshold ≤
        (bestForTemplate frameW frameH t.2.width t.2.height (oracle t.1)).val)
    ∧ ((∀ u ∈ cache,
          (bestForTemplate frameW frameH u.2.width u.2.height (oracle u.1)).val
            < confidenceThreshold)
        → scanMatches frameW frameH cache oracle = [])
    ∧ (∀ (st : ScannerState) (env : ScanEnv) (frame : Frame),
        st.isScanning = false → env.cvInit = Except.ok () →
        env.capture = Except.ok frame → env.matchThrows = false →
        (∀ u ∈ effectiveCache st env,
          (bestForTemplate frame.width frame.height u.2.width u.2.height
            (env.oracle u.1)).val < confidenceThreshold) →
        (scanScreenRun st env).result = Except.ok []) := by
  refine ⟨?_, ?_, ?_⟩
  rotate_right
  · -- a scan in which every template misses the threshold returns
    -- Except.ok [] — a normal, non-error outcome
    intro st env frame h hcv hcap hmt hall
    have hnil : scanMatches frame.width frame.height (effectiveCache st env)
        env.oracle = [] := by
      rw [scanMatches, List.flatMap_eq_nil_iff]
      intro u hu
      exact detectionsFor_eq_nil frame.width frame.height env.oracle u (hall u hu)
    have hres : (scanScreenRun st env).result
        = Except.ok (removeDuplicates
            (scanMatches frame.width frame.height (effectiveCache st env)
              env.oracle)) := by
      by_cases hemp : st.templatesCache.isEmpty <;>
        simp [scanScreenRun, effectiveCache, h, hcv, hcap, hmt, hemp]
    rw [hres, hnil]
    rfl
  · constructor
    · rintro ⟨dt, hdt, hid⟩
      rw [scanMatches, List.mem_flatMap] at hdt
      obtain ⟨u, hu, hdtu⟩ := hdt
      by_cases hval : confidenceThreshold ≤
          (bestForTemplate frameW frameH u.2.width u.2.height (oracle u.1)).val
      · -- the emitting template is t itself, by uniqueness of ids
        have hidu : dt.itemId = u.1 := by
          rcases hdata : (bestForTemplate frameW frameH u.2.width u.2.height
              (oracle u.1)).data with _ | d
          · simp [detectionsFor, hval, hdata] at hdtu
          · simp [detectionsFor, hval, hdata] at hdtu
            rw [hdtu]
        have hut : u = t :=
          List.inj_on_of_nodup_map hnd hu ht (by rw [← hidu, hid])
        rw [← hut]
        exact hval
      · rw [detectionsFor_eq_nil frameW frameH oracle u (not_le.1 hval)] at hdtu
        exact absurd hdtu (List.not_mem_nil dt)
    · intro hval
      rcases hdata : (bestForTemplate frameW frameH t.2.width t.2.height
          (oracle t.1)).data with _ | d
      · -- impossible: an un-updated best has value -1 < 0.8
        have := bestForTemplate_data_none frameW frameH t.2.width t.2.height
          (oracle t.1) hdata
        rw [this] at hval
        norm_num [confidenceThreshold] at hval
      · refine ⟨⟨t.1, d.x, d.y, d.width, d.height,
          (bestForTemplate frameW frameH t.2.width t.2.height (oracle t.1)).val⟩,
          ?_, rfl⟩
        rw [scanMatches, List.mem_flatMap]
        exact ⟨t, ht, by simp [detectionsFor, hval, hdata]⟩
  · intro hall
    rw [scanMatches, List.flatMap_eq_nil_iff]
    intro u hu
    exact detectionsFor_eq_nil frameW frameH oracle u (hall u hu)

/-- Concrete witness for `scanScreen_threshold`: a one-template cache whose
best value 0.9 passes the threshold, so a detection is emitted. -/
theorem scanScreen_threshold_witness :
    ∃ dt ∈ scanMatches 1920 1080 [("kappa", ⟨64, 64⟩)] (fun _ => w1Oracle),
      dt.itemId = "kappa" := by
  have h := scanScreen_threshold 1920 1080 [("kappa", ⟨64, 64⟩)] (fun _ => w1Oracle)
    (by simp) ("kappa", ⟨64, 64⟩) (by simp)
  refine h.1.2 ?_
  have hval : (bestForTemplate 1920 1080 64 64 w1Oracle).val = 9 / 10 := by
    norm_num [bestForTemplate, scales, scaleStep, jsRound, w1Oracle, List.foldl]
  rw [show (("kappa", (⟨64, 64⟩ : TemplateEntry)) : String × TemplateEntry).2.width = 64
      from rfl]
  norm_num [hval, confidenceThreshold]

/-- The greedy dedup walk only ever appends: its result is the accumulator
followed by a sublist of the input. -/
theorem dedup_foldl_append (l : List Detection) :
    ∀ u0, ∃ l', l.foldl dedupStep u0 = u0 ++ l' ∧ l'.Sublist l := by
  induction l with
  | nil => intro u0; exact ⟨[], by simp, List.Sublist.refl []⟩
  | cons m rest ih =>
    intro u0
    rw [List.foldl_cons]
    by_cases hov : u0.any (fun e => overlapsB e m)
    · have hstep : dedupStep u0 m = u0 := by simp [dedupStep, hov]
      rw [hstep]
      obtain ⟨l', hl', hsub⟩ := ih u0
      exact ⟨l', hl', hsub.cons m⟩
    · have hstep : dedupStep u0 m = u0 ++ [m] := by simp [dedupStep, hov]
      rw [hstep]
      obtain ⟨l', hl', hsub⟩ := ih (u0 ++ [m])
      exact ⟨m :: l', by rw [hl']; simp, hsub.cons₂ m⟩

/-- Elements of the accumulator survive the greedy dedup walk. -/
theorem dedup_foldl_mem (l : List Detection) (u0 : List Detection) (u : Detection)
    (hu : u ∈ u0) : u ∈ l.foldl dedupStep u0 := by
  obtain ⟨l', hl', -⟩ := dedup_foldl_append l u0
  rw [hl']
  exact List.mem_append_left l' hu

/-- If the accumulator is pairwise separated, so is the result of the
greedy dedup walk. -/
theorem dedup_foldl_separated (l : List Detection) :
    ∀ u0, u0.Pairwise separated → (l.foldl dedupStep u0).Pairwise separated := by
  induction l with
  | nil => intro u0 h; exact h
  | cons m rest ih =>
    intro u0 h
    rw [List.foldl_cons]
    by_cases hov : u0.any (fun e => overlapsB e m)
    · have hstep : dedupStep u0 m = u0 := by simp [dedupStep, hov]
      rw [hstep]; exact ih u0 h
    · have hstep : dedupStep u0 m = u0 ++ [m] := by simp [dedupStep, hov]
      rw [hstep]
      refine ih (u0 ++ [m]) ?_
      rw [List.pairwise_append]
      refine ⟨h, List.pairwise_singleton _ m, ?_⟩
      intro e he m' hm'
      rw [List.mem_singleton] at hm'
      subst hm'
      rw [List.any_eq_true] at hov
      push_neg at hov
      have hne := hov e he
      simp only [overlapsB, Bool.and_eq_true, decide_eq_true_eq, ne_eq] at hne
      rw [separated]
      rcases not_and_or.1 hne with hh | hh
      · exact Or.inl (not_lt.1 hh)
      · exact Or.inr (not_lt.1 hh)

/-- If the accumulator is sorted (descending confidence), dominates the
remaining input, and the remaining input is itself sorted, the greedy dedup
walk preserves sortedness. -/
theorem dedup_foldl_sorted (l : List Detection) :
    ∀ u0, u0.Pairwise confGE → l.Pairwise confGE →
      (∀ a ∈ u0, ∀ b ∈ l, confGE a b) →
      (l.foldl dedupStep u0).Pairwise confGE := by
  induction l with
  | nil => intro u0 h _ _; exact h
  | cons m rest ih =>
    intro u0 h hl hcross
    have hlrest : rest.Pairwise confGE := (List.pairwise_cons.1 hl).2
    have hmrest : ∀ b ∈ rest, confGE m b := (List.pairwise_cons.1 hl).1
    rw [List.foldl_cons]
    by_cases hov : u0.any (fun e => overlapsB e m)
    · have hstep : dedupStep u0 m = u0 := by simp [dedupStep, hov]
      rw [hstep]
      exact ih u0 h hlrest (fun a ha b hb => hcross a ha b (List.mem_cons_of_mem m hb))
    · have hstep : dedupStep u0 m = u0 ++ [m] := by simp [dedupStep, hov]
      rw [hstep]
      refine ih (u0 ++ [m]) ?_ hlrest ?_
      · rw [List.pairwise_append]
        refine ⟨h, List.pairwise_singleton _ m, ?_⟩
        intro e he m' hm'
        rw [List.mem_singleton] at hm'
        subst hm'
        exact hcross e he m' (List.mem_cons_self m' rest)
      · intro a ha b hb
        rcases List.mem_append.1 ha with ha' | ha'
        · exact hcross a ha' b (List.mem_cons_of_mem m hb)
        · rw [List.mem_singleton] at ha'
          subst ha'
          exact hmrest b hb

/-- Every input detection of the greedy dedup walk is dominated by some
accepted detection: one of greater-or-equal confidence whose center is
within the 20px tolerance in both axes. -/
theorem dedup_foldl_dominated (l : List Detection) :
    ∀ u0, l.Pairwise confGE → (∀ a ∈ u0, ∀ b ∈ l, confGE a b) →
      ∀ m ∈ l, ∃ u ∈ l.foldl dedupStep u0,
        m.confidence ≤ u.confidence
        ∧ |centerX u - centerX m| < 20 ∧ |centerY u - centerY m| < 20 := by
  induction l with
  | nil => intro u0 _ _ m hm; exact absurd hm (List.not_mem_nil m)
  | cons m0 rest ih =>
    intro u0 hl hcross m hm
    have hlrest : rest.Pairwise confGE := (List.pairwise_cons.1 hl).2
    have hm0rest : ∀ b ∈ rest, confGE m0 b := (List.pairwise_cons.1 hl).1
    rw [List.foldl_cons]
    by_cases hov : u0.any (fun e => overlapsB e m0)
    · have hstep : dedupStep u0 m0 = u0 := by simp [dedupStep, hov]
      rw [hstep]
      rcases List.mem_cons.1 hm with hm' | hm'
      · -- m = m0 was rejected: the accepted detection it overlaps dominates it
        subst hm'
        rw [List.any_eq_true] at hov
        obtain ⟨e, he, hove⟩ := hov
        rw [overlapsB, Bool.and_eq_true, decide_eq_true_eq, decide_eq_true_eq] at hove
        exact ⟨e, dedup_foldl_mem rest u0 e he,
          hcross e he m (List.mem_cons_self m rest), hove.1, hove.2⟩
      · exact ih u0 hlrest
          (fun a ha b hb => hcross a ha b (List.mem_cons_of_mem m0 hb)) m hm'
    · have hstep : dedupStep u0 m0 = u0 ++ [m0] := by simp [dedupStep, hov]
      rw [hstep]
      have hcross' : ∀ a ∈ u0 ++ [m0], ∀ b ∈ rest, confGE a b := by
        intro a ha b hb
        rcases List.mem_append.1 ha with ha' | ha'
        · exact hcross a ha' b (List.mem_cons_of_mem m0 hb)
        · rw [List.mem_singleton] at ha'
          subst ha'
          exact hm0rest b hb
      rcases List.mem_cons.1 hm with hm' | hm'
      · -- m = m0 was accepted and dominates itself
        subst hm'
        refine ⟨m, dedup_foldl_mem rest (u0 ++ [m]) m (by simp), le_refl _, ?_, ?_⟩
          <;> simp
      · exact ih (u0 ++ [m0]) hlrest hcross' m hm'

/-- C3: `removeDuplicates` sorts by confidence descending and greedily keeps
a detection only if its center differs by at least 20px in x or in y from
every kept one: the output is pairwise separated, sorted by descending
confidence, and every input detection is dominated by a kept detection of
greater-or-equal confidence within the 20px tolerance; concretely, the two
synthetic detections `dupA`/`dupB` with centers 5px apart collapse to the
higher-confidence `dupA`, while `farC`/`farD` with centers 50px apart both
survive. -/
theorem removeDuplicates_spec :
    (∀ ms : List Detection,
      (removeDuplicates ms).Pairwise separated
      ∧ (removeDuplicates ms).Pairwise confGE
      ∧ (∀ m ∈ ms, ∃ u ∈ removeDuplicates ms,
          m.confidence ≤ u.confidence
          ∧ |centerX u - centerX m| < 20 ∧ |centerY u - centerY m| < 20))
    ∧ removeDuplicates [dupB, dupA] = [dupA]
    ∧ removeDuplicates [farC, farD] = [farC, farD] := by
  refine ⟨?_, ?_, ?_⟩
  · intro ms
    have hsorted : (sortByConfDesc ms).Pairwise confGE :=
      List.sorted_insertionSort confGE ms
    have hperm : List.Perm (sortByConfDesc ms) ms := List.perm_insertionSort confGE ms
    refine ⟨?_, ?_, ?_⟩
    · exact dedup_foldl_separated (sortByConfDesc ms) [] (List.Pairwise.nil)
    · exact dedup_foldl_sorted (sortByConfDesc ms) [] List.Pairwise.nil hsorted
        (by intro a ha; exact absurd ha (List.not_mem_nil a))
    · intro m hm
      exact dedup_foldl_dominated (sortByConfDesc ms) [] hsorted
        (by intro a ha; exact absurd ha (List.not_mem_nil a)) m
        (hperm.mem_iff.2 hm)
  · norm_num [removeDuplicates, sortByConfDesc, List.insertionSort,
      List.orderedInsert, confGE, dupA, dupB, List.foldl, dedupStep, overlapsB,
      centerX, centerY, List.any]
  · norm_num [removeDuplicates, sortByConfDesc, List.insertionSort,
      List.orderedInsert, confGE, farC, farD, List.foldl, dedupStep, overlapsB,
      centerX, centerY, List.any]

/-- Concrete witness for `removeDuplicates_spec`: the rejected lower-confidence
detection `dupB` is dominated by the kept `dupA` within the tolerance. -/
theorem removeDuplicates_spec_witness :
    ∃ u ∈ removeDuplicates [dupB, dupA],
      dupB.confidence ≤ u.confidence
      ∧ |centerX u - centerX dupB| < 20 ∧ |centerY u - centerY dupB| < 20 :=
  (removeDuplicates_spec.1 [dupB, dupA]).2.2 dupB (by simp)

/-- C4 (amended): `scanScreen` never propagates an error to its caller:
the `catch` block of lines 278-280 absorbs every failure of the `try`
block — OpenCV initialization, capture (including "no screen sources"),
and matching — and returns a (possibly empty) result list. -/
theorem scanScreen_never_rejects (st : ScannerState) (env : ScanEnv) :
    ∃ r, (scanScreenRun st env).result = Except.ok r := by
  rw [scanScreenRun]
  split
  · exact ⟨[], rfl⟩
  · split
    · exact ⟨[], rfl⟩
    · split
      · exact ⟨[], rfl⟩
      · split
        · exact ⟨[], rfl⟩
        · exact ⟨_, rfl⟩

/-- C4 counterexample: a total capture failure does not propagate to the
caller as an error — contrary to the claim, the call resolves normally
with an empty list (the `catch` block at line 278 swallows the error
rethrown by `captureScreen`). -/
theorem scanScreen_capture_error_absorbed :
    (scanScreenRun ⟨[("kappa", ⟨64, 64⟩)], false⟩ wEnvCapFail).result = Except.ok []
    ∧ ∀ e, (scanScreenRun ⟨[("kappa", ⟨64, 64⟩)], false⟩ wEnvCapFail).result
        ≠ Except.error e := by
  refine ⟨rfl, ?_⟩
  intro e
  rw [show (scanScreenRun ⟨[("kappa", ⟨64, 64⟩)], false⟩ wEnvCapFail).result
      = Except.ok [] from rfl]
  simp

/-- C5: a scan request received while another scan is in flight is rejected
immediately (lines 195-198): it returns an empty result, starts no capture,
and leaves the scanner state untouched (nothing is queued). -/
theorem scanScreen_single_flight (st : ScannerState) (env : ScanEnv)
    (h : st.isScanning = true) :
    scanScreenRun st env = ⟨st, Except.ok [], 0, none⟩ := by
  simp [scanScreenRun, h]

/-- Concrete witness for `scanScreen_single_flight`: a scanner mid-scan
rejects a second request without capturing. -/
theorem scanScreen_single_flight_witness :
    scanScreenRun ⟨[], true⟩ wEnv = ⟨⟨[], true⟩, Except.ok [], 0, none⟩ :=
  scanScreen_single_flight ⟨[], true⟩ wEnv rfl

/-- C6: for every scan invocation that actually enters the scanning state,
the in-progress flag is cleared before the call returns, on the success
path and on every failure path (OpenCV init failure, capture failure,
matching failure) — the `finally` block of lines 281-283. -/
theorem scanScreen_clears_flag (st : ScannerState) (env : ScanEnv)
    (h : st.isScanning = false) :
    (scanScreenRun st env).state.isScanning = false := by
  rcases hcv : env.cvInit with e | u <;>
    rcases hcap : env.capture with e2 | frame <;>
      rcases hmt : env.matchThrows with _ | _ <;>
        simp [scanScreenRun, h, hcv, hcap, hmt]

/-- Concrete witness for `scanScreen_clears_flag`: after a scan whose
capture failed, the flag is back to `false`. -/
theorem scanScreen_clears_flag_witness :
    (scanScreenRun ⟨[("kappa", ⟨64, 64⟩)], false⟩ wEnvCapFail).state.isScanning
      = false :=
  scanScreen_clears_flag ⟨[("kappa", ⟨64, 64⟩)], false⟩ wEnvCapFail rfl

/-- C9 (amended): a successful scan returns the deduplicated detection
list itself — whose entries carry `itemId`, `x`, `y`, `width`, `height`
and `confidence` — not a record pairing it with the elapsed time; the
elapsed time is only logged (line 274). -/
theorem scanScreen_returns_dedup_list (st : ScannerState) (env : ScanEnv)
    (frame : Frame) (h : st.isScanning = false) (hcv : env.cvInit = Except.ok ())
    (hcap : env.capture = Except.ok frame) (hmt : env.matchThrows = false) :
    (scanScreenRun st env).result
      = Except.ok (removeDuplicates
          (scanMatches frame.width frame.height (effectiveCache st env) env.oracle))
    ∧ (scanScreenRun st env).loggedDurationMs = some env.elapsedMs := by
  by_cases hemp : st.templatesCache.isEmpty <;>
    constructor <;>
      simp [scanScreenRun, effectiveCache, h, hcv, hcap, hmt, hemp]

/-- Concrete witness for `scanScreen_returns_dedup_list`. -/
theorem scanScreen_returns_dedup_list_witness :
    (scanScreenRun ⟨[("kappa", ⟨64, 64⟩)], false⟩ wEnv).result
      = Except.ok (removeDuplicates
          (scanMatches 1920 1080
            (effectiveCache ⟨[("kappa", ⟨64, 64⟩)], false⟩ wEnv) wEnv.oracle))
    ∧ (scanScreenRun ⟨[("kappa", ⟨64, 64⟩)], false⟩ wEnv).loggedDurationMs
        = some wEnv.elapsedMs :=
  scanScreen_returns_dedup_list ⟨[("kappa", ⟨64, 64⟩)], false⟩ wEnv ⟨1920, 1080⟩
    rfl rfl rfl rfl

/-- C9 counterexample: the value returned to the caller does not contain
the elapsed scan time — two scans identical except for their duration
return identical values, so no elapsed-time component can be recovered
from the return value (it is only logged). -/
theorem scanScreen_result_omits_duration :
    (scanScreenRun ⟨[("kappa", ⟨64, 64⟩)], false⟩ wEnv).result
      = (scanScreenRun ⟨[("kappa", ⟨64, 64⟩)], false⟩ wEnvSlow).result
    ∧ wEnv.elapsedMs ≠ wEnvSlow.elapsedMs := by
  exact ⟨rfl, by simp [wEnv, wEnvSlow]⟩

/-- Each template contributes no detection or exactly one, carrying its own
id. -/
theorem detectionsFor_map_itemId (frameW frameH : ℤ)
    (oracle : String → ℚ → MatchResult) (t : String × TemplateEntry) :
    (detectionsFor frameW frameH oracle t).map Detection.itemId = []
    ∨ (detectionsFor frameW frameH oracle t).map Detection.itemId = [t.1] := by
  rw [detectionsFor]
  by_cases h : confidenceThreshold ≤
      (bestForTemplate frameW frameH t.2.width t.2.height (oracle t.1)).val
  · rcases hdata : (bestForTemplate frameW frameH t.2.width t.2.height
        (oracle t.1)).data with _ | d
    · left; simp [h, hdata]
    · right; simp [h, hdata]
  · left; simp [h]

/-- The ids of the raw match list form a sublist of the cache's key list:
the per-template loop emits at most one detection per template, in cache
order. -/
theorem scanMatches_itemIds_sublist (frameW frameH : ℤ)
    (cache : List (String × TemplateEntry)) (oracle : String → ℚ → MatchResult) :
    ((scanMatches frameW frameH cache oracle).map Detection.itemId).Sublist
      (cache.map Prod.fst) := by
  induction cache with
  | nil => simp [scanMatches]
  | cons t rest ih =>
    rw [scanMatches, List.flatMap_cons, List.map_append, List.map_cons]
    rcases detectionsFor_map_itemId frameW frameH oracle t with h | h
    · rw [h, List.nil_append]
      exact ih.cons t.1
    · rw [h, List.singleton_append]
      exact ih.cons₂ t.1

/-- C10: for distinct template ids, the raw match list contains at most one
detection per template id (its ids are pairwise distinct), and the final
deduplicated result — a subset of the raw list — therefore does too. -/
theorem scan_at_most_one_per_template (frameW frameH : ℤ)
    (cache : List (String × TemplateEntry)) (oracle : String → ℚ → MatchResult)
    (hnd : (cache.map Prod.fst).Nodup) :
    ((scanMatches frameW frameH cache oracle).map Detection.itemId).Nodup
    ∧ ((removeDuplicates (scanMatches frameW frameH cache oracle)).map
        Detection.itemId).Nodup
    ∧ (∀ x ∈ removeDuplicates (scanMatches frameW frameH cache oracle),
        x ∈ scanMatches frameW frameH cache oracle) := by
  have hsub := scanMatches_itemIds_sublist frameW frameH cache oracle
  have h1 : ((scanMatches frameW frameH cache oracle).map Detection.itemId).Nodup :=
    List.Nodup.sublist hsub hnd
  obtain ⟨l', hl', hsubl⟩ :=
    dedup_foldl_append (sortByConfDesc (scanMatches frameW frameH cache oracle)) []
  have hout : removeDuplicates (scanMatches frameW frameH cache oracle) = l' := by
    rw [removeDuplicates, hl', List.nil_append]
  have hperm : List.Perm (sortByConfDesc (scanMatches frameW frameH cache oracle))
      (scanMatches frameW frameH cache oracle) :=
    List.perm_insertionSort confGE _
  have hsortednodup :
      ((sortByConfDesc (scanMatches frameW frameH cache oracle)).map
        Detection.itemId).Nodup :=
    ((hperm.map Detection.itemId).nodup_iff).2 h1
  refine ⟨h1, ?_, ?_⟩
  · rw [hout]
    exact List.Nodup.sublist (hsubl.map Detection.itemId) hsortednodup
  · intro x hx
    rw [hout] at hx
    exact hperm.mem_iff.1 (hsubl.subset hx)

/-- Concrete witness for `scan_at_most_one_per_template`: a two-template
cache with distinct ids. -/
theorem scan_at_most_one_per_template_witness :
    ((scanMatches 1920 1080 [("a", ⟨64, 64⟩), ("b", ⟨64, 64⟩)]
        (fun _ => w1Oracle)).map Detection.itemId).Nodup
    ∧ ((removeDuplicates (scanMatches 1920 1080 [("a", ⟨64, 64⟩), ("b", ⟨64, 64⟩)]
        (fun _ => w1Oracle))).map Detection.itemId).Nodup
    ∧ (∀ x ∈ removeDuplicates (scanMatches 1920 1080
        [("a", ⟨64, 64⟩), ("b", ⟨64, 64⟩)] (fun _ => w1Oracle)),
        x ∈ scanMatches 1920 1080 [("a", ⟨64, 64⟩), ("b", ⟨64, 64⟩)]
          (fun _ => w1Oracle)) :=
  scan_at_most_one_per_template 1920 1080 [("a", ⟨64, 64⟩), ("b", ⟨64, 64⟩)]
    (fun _ => w1Oracle) (by simp)

theorem lookup_cons' (k' : String) (p : String × TemplateEntry)
    (m : List (String × TemplateEntry)) :
    List.lookup k' (p :: m) = if k' = p.1 then some p.2 else List.lookup k' m := by
  rcases p with ⟨pk, pv⟩
  by_cases h : k' = pk
  · simp [List.lookup, h]
  · have hb : (k' == pk) = false := beq_eq_false_iff_ne.2 h
    simp [List.lookup, hb, h]

theorem lookup_map_overwrite (k : String) (v : TemplateEntry) (k' : String)
    (h : k' ≠ k) (m : List (String × TemplateEntry)) :
    (m.map (fun p => if p.1 == k then (k, v) else p)).lookup k' = m.lookup k' := by
  induction m with
  | nil => rfl
  | cons p m ih =>
    by_cases hp : p.1 = k
    · have hhead : (if p.1 == k then (k, v) else p) = (k, v) := by simp [hp]
      rw [List.map_cons, hhead, lookup_cons', lookup_cons']
      rw [if_neg h, if_neg (fun he : k' = p.1 => h (he.trans hp))]
      exact ih
    · have hhead : (if p.1 == k then (k, v) else p) = p := by simp [hp]
      rw [List.map_cons, hhead, lookup_cons', lookup_cons']
      by_cases hk' : k' = p.1
      · rw [if_pos hk', if_pos hk']
      · rw [if_neg hk', if_neg hk']
        exact ih

theorem lookup_map_overwrite_self (k : String) (v : TemplateEntry)
    (m : List (String × TemplateEntry)) (h : m.any (fun p => p.1 == k) = true) :
    (m.map (fun p => if p.1 == k then (k, v) else p)).lookup k = some v := by
  induction m with
  | nil => simp at h
  | cons p m ih =>
    by_cases hp : p.1 = k
    · have hhead : (if p.1 == k then (k, v) else p) = (k, v) := by simp [hp]
      rw [List.map_cons, hhead, lookup_cons', if_pos rfl]
    · have hhead : (if p.1 == k then (k, v) else p) = p := by simp [hp]
      rw [List.map_cons, hhead, lookup_cons',
        if_neg (fun he : k = p.1 => hp he.symm)]
      rw [List.any_cons] at h
      rcases Bool.or_eq_true_iff.1 h with h' | h'
      · rw [beq_iff_eq] at h'
        exact absurd h' hp
      · exact ih h'

theorem lookup_eq_none_of_any_false (k : String) (m : List (String × TemplateEntry))
    (h : m.any (fun p => p.1 == k) = false) : m.lookup k = none := by
  induction m with
  | nil => rfl
  | cons p m ih =>
    rw [List.any_cons, Bool.or_eq_false_iff] at h
    rw [lookup_cons',
      if_neg (fun he : k = p.1 => beq_eq_false_iff_ne.1 h.1 he.symm)]
    exact ih h.2

theorem lookup_append_singleton (k : String) (v : TemplateEntry) (k' : String)
    (m : List (String × TemplateEntry)) :
    (m ++ [(k, v)]).lookup k' =
      match m.lookup k' with
      | some w => some w
      | none => if k' = k then some v else none := by
  induction m with
  | nil =>
    rw [List.nil_append, lookup_cons']
    rfl
  | cons p m ih =>
    rw [List.cons_append, lookup_cons', lookup_cons']
    by_cases h : k' = p.1
    · rw [if_pos h, if_pos h]
    · rw [if_neg h, if_neg h]
      exact ih

/-- `Map.set` semantics at the level of `Map.get`: the written key reads
back the written value, other keys are untouched. -/
theorem lookup_mapSet (m : List (String × TemplateEntry)) (k : String)
    (v : TemplateEntry) (k' : String) :
    (mapSet m k v).lookup k' = if k' = k then some v else m.lookup k' := by
  by_cases hany : m.any (fun p => p.1 == k) = true
  · rw [mapSet, if_pos hany]
    by_cases hk : k' = k
    · subst hk
      rw [if_pos rfl]
      exact lookup_map_overwrite_self k' v m hany
    · rw [if_neg hk]
      exact lookup_map_overwrite k v k' hk m
  · rw [mapSet, if_neg hany, lookup_append_singleton]
    rw [Bool.not_eq_true] at hany
    by_cases hk : k' = k
    · subst hk
      rw [lookup_eq_none_of_any_false k' m hany, if_pos rfl]
    · rw [if_neg hk]
      cases hmk : m.lookup k' <;> simp [hk]

/-- `Map.set` at the level of the key list: overwriting keeps the key list,
inserting appends the new key. -/
theorem keys_mapSet (m : List (String × TemplateEntry)) (k : String)
    (v : TemplateEntry) :
    (mapSet m k v).map Prod.fst =
      if m.any (fun p => p.1 == k) then m.map Prod.fst
      else m.map Prod.fst ++ [k] := by
  by_cases hany : m.any (fun p => p.1 == k) = true
  · rw [mapSet, if_pos hany, if_pos hany, List.map_map]
    refine List.map_congr_left ?_
    intro p _
    by_cases hp : p.1 = k
    · simp [hp]
    · simp [hp]
  · rw [mapSet, if_neg hany, if_neg hany]
    simp

theorem any_keys_iff (m : List (String × TemplateEntry)) (k : String) :
    m.any (fun p => p.1 == k) = true ↔ k ∈ m.map Prod.fst := by
  rw [List.any_eq_true]
  constructor
  · rintro ⟨p, hp, he⟩
    rw [beq_iff_eq] at he
    exact he ▸ List.mem_map_of_mem Prod.fst hp
  · intro hm
    obtain ⟨p, hp, he⟩ := List.mem_map.1 hm
    exact ⟨p, hp, by rw [beq_iff_eq]; exact he⟩

theorem nodupKeys_mapSet (m : List (String × TemplateEntry)) (k : String)
    (v : TemplateEntry) (h : (m.map Prod.fst).Nodup) :
    ((mapSet m k v).map Prod.fst).Nodup := by
  rw [keys_mapSet]
  by_cases hany : m.any (fun p => p.1 == k) = true
  · rw [if_pos hany]; exact h
  · rw [if_neg hany]
    have hk : k ∉ m.map Prod.fst := fun hm => hany ((any_keys_iff m k).2 hm)
    simp [List.nodup_append, h, hk]

theorem mem_keys_of_lookup (m : List (String × TemplateEntry)) (k : String)
    (v : TemplateEntry) (h : m.lookup k = some v) : k ∈ m.map Prod.fst := by
  induction m with
  | nil => simp [List.lookup] at h
  | cons p m ih =>
    rw [lookup_cons'] at h
    by_cases hk : k = p.1
    · rw [List.map_cons, hk]
      exact List.mem_cons_self _ _
    · rw [if_neg hk] at h
      exact List.mem_cons_of_mem _ (ih h)

theorem lookup_eq_none_of_not_mem_keys (m : List (String × TemplateEntry))
    (k : String) (h : k ∉ m.map Prod.fst) : m.lookup k = none := by
  cases hl : m.lookup k with
  | none => rfl
  | some v => exact absurd (mem_keys_of_lookup m k v hl) h

/-- Two association lists with the same key list (without duplicates) and
the same lookups are equal. -/
theorem assoc_ext (m1 : List (String × TemplateEntry)) :
    ∀ m2 : List (String × TemplateEntry),
      m1.map Prod.fst = m2.map Prod.fst → (m1.map Prod.fst).Nodup →
      (∀ k, m1.lookup k = m2.lookup k) → m1 = m2 := by
  induction m1 with
  | nil =>
    intro m2 hk _ _
    cases m2 with
    | nil => rfl
    | cons q m2' => simp at hk
  | cons p m ih =>
    intro m2 hk hnd hlook
    cases m2 with
    | nil => simp at hk
    | cons q m2' =>
      rw [List.map_cons, List.map_cons] at hk
      have hk1 : p.1 = q.1 := (List.cons.injEq _ _ _ _ ▸ hk).1
      have hk2 : m.map Prod.fst = m2'.map Prod.fst :=
        (List.cons.injEq _ _ _ _ ▸ hk).2
      have hndm : (m.map Prod.fst).Nodup :=
        (List.nodup_cons.1 (List.map_cons _ _ _ ▸ hnd)).2
      have hpnot : p.1 ∉ m.map Prod.fst :=
        (List.nodup_cons.1 (List.map_cons _ _ _ ▸ hnd)).1
      have hv : p.2 = q.2 := by
        have h1 := hlook p.1
        rw [lookup_cons', lookup_cons', if_pos rfl, if_pos hk1] at h1
        exact Option.some.inj h1
      have hpq : p = q := Prod.ext hk1 hv
      have htail : m = m2' := by
        refine ih m2' hk2 hndm ?_
        intro k
        by_cases hkp : k = p.1
        · rw [hkp, lookup_eq_none_of_not_mem_keys m p.1 hpnot,
            lookup_eq_none_of_not_mem_keys m2' p.1 (by rw [← hk2]; exact hpnot)]
        · have h1 := hlook k
          rw [lookup_cons', lookup_cons', if_neg hkp,
            if_neg (by rw [← hk1]; exact hkp)] at h1
          exact h1
      rw [hpq, htail]

/-- Lookup after the per-file loop: the value recorded for a key is the
decode of the last decodable file with that base name, else whatever the
initial cache held. -/
theorem loadFold_lookup (decode : String → Option TemplateEntry) (fs : List String) :
    ∀ (c : List (String × TemplateEntry)) (w : ℕ) (k : String),
      ((fs.foldl (loadStep decode) (c, w)).1).lookup k =
        match lastSet decode fs k with
        | some t => some t
        | none => c.lookup k := by
  induction fs with
  | nil => intro c w k; rfl
  | cons f fs ih =>
    intro c w k
    rw [List.foldl_cons]
    rcases hdf : decode f with _ | t
    · rw [show loadStep decode (c, w) f = (c, w + 1) by simp [loadStep, hdf]]
      rw [ih c (w + 1) k]
      cases hls : lastSet decode fs k with
      | some t' => simp [lastSet, hls]
      | none => simp [lastSet, hls, hdf]
    · rw [show loadStep decode (c, w) f = (mapSet c (baseId f) t, w) by
        simp [loadStep, hdf]]
      rw [ih _ w k]
      cases hls : lastSet decode fs k with
      | some t' => simp [lastSet, hls]
      | none =>
        simp only [lastSet, hls]
        rw [lookup_mapSet]
        by_cases hb : baseId f = k
        · rw [if_pos hb.symm, if_pos hb, hdf]
        · rw [if_neg (fun he : k = baseId f => hb he.symm), if_neg hb]

/-- The warning counter after the per-file loop counts the files that
failed to decode. -/
theorem loadFold_warnings (decode : String → Option TemplateEntry)
    (fs : List String) :
    ∀ (c : List (String × TemplateEntry)) (w : ℕ),
      (fs.foldl (loadStep decode) (c, w)).2 =
        w + (fs.filter (fun f => (decode f).isNone)).length := by
  induction fs with
  | nil => intro c w; simp
  | cons f fs ih =>
    intro c w
    rw [List.foldl_cons]
    rcases hdf : decode f with _ | t
    · rw [show loadStep decode (c, w) f = (c, w + 1) by simp [loadStep, hdf]]
      rw [ih c (w + 1)]
      simp [hdf]
      omega
    · rw [show loadStep decode (c, w) f = (mapSet c (baseId f) t, w) by
        simp [loadStep, hdf]]
      rw [ih _ w]
      simp [hdf]

/-- The key list after the per-file loop: the initial keys followed by the
new base names in first-occurrence order. -/
theorem loadFold_keys (decode : String → Option TemplateEntry) (fs : List String) :
    ∀ (c : List (String × TemplateEntry)) (w : ℕ),
      ((fs.foldl (loadStep decode) (c, w)).1).map Prod.fst =
        c.map Prod.fst ++ newKeys decode (c.map Prod.fst) fs := by
  induction fs with
  | nil => intro c w; simp [newKeys]
  | cons f fs ih =>
    intro c w
    rw [List.foldl_cons]
    rcases hdf : decode f with _ | t
    · rw [show loadStep decode (c, w) f = (c, w + 1) by simp [loadStep, hdf]]
      rw [ih c (w + 1)]
      simp [newKeys, hdf]
    · rw [show loadStep decode (c, w) f = (mapSet c (baseId f) t, w) by
        simp [loadStep, hdf]]
      rw [ih _ w, keys_mapSet]
      by_cases hany : c.any (fun p => p.1 == baseId f) = true
      · rw [if_pos hany]
        have hmem : baseId f ∈ c.map Prod.fst := (any_keys_iff c (baseId f)).1 hany
        simp only [newKeys, hdf, hmem, if_true]
      · rw [if_neg hany]
        have hmem : baseId f ∉ c.map Prod.fst :=
          fun hm => hany ((any_keys_iff c (baseId f)).2 hm)
        simp only [newKeys, hdf, hmem, if_false]
        rw [List.append_assoc, List.singleton_append]

/-- The per-file loop preserves key-list distinctness. -/
theorem loadFold_nodupKeys (decode : String → Option TemplateEntry)
    (fs : List String) :
    ∀ (c : List (String × TemplateEntry)) (w : ℕ),
      (c.map Prod.fst).Nodup →
      (((fs.foldl (loadStep decode) (c, w)).1).map Prod.fst).Nodup := by
  induction fs with
  | nil => intro c w h; exact h
  | cons f fs ih =>
    intro c w h
    rw [List.foldl_cons]
    rcases hdf : decode f with _ | t
    · rw [show loadStep decode (c, w) f = (c, w + 1) by simp [loadStep, hdf]]
      exact ih c (w + 1) h
    · rw [show loadStep decode (c, w) f = (mapSet c (baseId f) t, w) by
        simp [loadStep, hdf]]
      exact ih _ w (nodupKeys_mapSet c (baseId f) t h)

/-- A decodable member of the file list leaves some value under its base
name. -/
theorem lastSet_isSome_of_mem (decode : String → Option TemplateEntry)
    (fs : List String) (f : String) (t : TemplateEntry)
    (hf : f ∈ fs) (hd : decode f = some t) :
    ∃ t', lastSet decode fs (baseId f) = some t' := by
  induction fs with
  | nil => exact absurd hf (List.not_mem_nil f)
  | cons g fs ih =>
    rcases List.mem_cons.1 hf with he | hmem
    · subst he
      cases hls : lastSet decode fs (baseId f) with
      | some t' => exact ⟨t', by simp [lastSet, hls]⟩
      | none => exact ⟨t, by simp [lastSet, hls, hd]⟩
    · obtain ⟨t', ht'⟩ := ih hmem
      exact ⟨t', by simp [lastSet, ht']⟩

/-- If every decodable file's base name is already a key, no key is added. -/
theorem newKeys_eq_nil (decode : String → Option TemplateEntry) (fs : List String) :
    ∀ ks : List String,
      (∀ f ∈ fs, (decode f).isSome → baseId f ∈ ks) →
      newKeys decode ks fs = [] := by
  induction fs with
  | nil => intro ks _; rfl
  | cons f fs ih =>
    intro ks hall
    rcases hdf : decode f with _ | t
    · simp only [newKeys, hdf]
      exact ih ks (fun g hg hgs => hall g (List.mem_cons_of_mem f hg) hgs)
    · have hmem : baseId f ∈ ks :=
        hall f (List.mem_cons_self f fs) (by rw [hdf]; rfl)
      simp only [newKeys, hdf, hmem, if_true]
      exact ih ks (fun g hg hgs => hall g (List.mem_cons_of_mem f hg) hgs)

/-- C7: loading the catalog a second time after a successful first load
leaves the template cache extensionally unchanged — no entry is duplicated
(`Map.set` overwrites by key) or corrupted (the same file decodes to the
same value) — and returns the already-loaded count; moreover `scanScreen`
only triggers a load when the cache is empty, so through the scan path the
load happens once per process. -/
theorem loadTemplates_idempotent (files : List String)
    (decode : String → Option TemplateEntry) :
    ((loadTemplates (loadTemplates [] files decode).cache files decode).cache
        = (loadTemplates [] files decode).cache
      ∧ (loadTemplates (loadTemplates [] files decode).cache files decode).count
        = (loadTemplates [] files decode).count)
    ∧ (∀ (st : ScannerState) (env : ScanEnv), st.templatesCache ≠ [] →
        (scanScreenRun st env).state.templatesCache = st.templatesCache) := by
  have hguard : ∀ (st : ScannerState) (env : ScanEnv), st.templatesCache ≠ [] →
      (scanScreenRun st env).state.templatesCache = st.templatesCache := by
    intro st env hne
    by_cases hs : st.isScanning
    · simp [scanScreenRun, hs]
    · have hemp : st.templatesCache.isEmpty = false := by
        simp [List.isEmpty_iff, hne]
      rcases hcv : env.cvInit with e | u <;>
        rcases hcap : env.capture with e2 | frame <;>
          rcases hmt : env.matchThrows with _ | _ <;>
            simp [scanScreenRun, hs, hcv, hcap, hmt, hemp]
  refine ⟨?_, hguard⟩
  by_cases himgs : (files.filter isImageFile).isEmpty = true
  · constructor <;> simp [loadTemplates, himgs]
  · have hc1 : (loadTemplates [] files decode).cache
        = ((files.filter isImageFile).foldl (loadStep decode) ([], 0)).1 := by
      simp [loadTemplates, himgs]
    have hn1 : (loadTemplates [] files decode).count
        = ((files.filter isImageFile).foldl (loadStep decode) ([], 0)).1.length := by
      simp [loadTemplates, himgs]
    have hc2 : (loadTemplates (loadTemplates [] files decode).cache files decode).cache
        = ((files.filter isImageFile).foldl (loadStep decode)
            ((loadTemplates [] files decode).cache, 0)).1 := by
      simp [loadTemplates, himgs]
    have hn2 : (loadTemplates (loadTemplates [] files decode).cache files decode).count
        = ((files.filter isImageFile).foldl (loadStep decode)
            ((loadTemplates [] files decode).cache, 0)).1.length := by
      simp [loadTemplates, himgs]
    have nodup1 : (((files.filter isImageFile).foldl (loadStep decode)
        ([], 0)).1.map Prod.fst).Nodup :=
      loadFold_nodupKeys decode (files.filter isImageFile) [] 0 (by simp)
    have hpresent : ∀ f ∈ files.filter isImageFile, (decode f).isSome →
        baseId f ∈ ((files.filter isImageFile).foldl (loadStep decode)
          ([], 0)).1.map Prod.fst := by
      intro f hf hsome
      obtain ⟨t, ht⟩ := Option.isSome_iff_exists.1 hsome
      obtain ⟨t', hls⟩ :=
        lastSet_isSome_of_mem decode (files.filter isImageFile) f t hf ht
      refine mem_keys_of_lookup _ (baseId f) t' ?_
      rw [loadFold_lookup decode (files.filter isImageFile) [] 0 (baseId f)]
      simp [hls]
    have keys2 : ((files.filter isImageFile).foldl (loadStep decode)
          ((loadTemplates [] files decode).cache, 0)).1.map Prod.fst
        = ((files.filter isImageFile).foldl (loadStep decode)
            ([], 0)).1.map Prod.fst := by
      rw [loadFold_keys, hc1,
        newKeys_eq_nil decode (files.filter isImageFile) _ hpresent,
        List.append_nil]
    have hlook2 : ∀ k, ((files.filter isImageFile).foldl (loadStep decode)
          ((loadTemplates [] files decode).cache, 0)).1.lookup k
        = ((files.filter isImageFile).foldl (loadStep decode)
            ([], 0)).1.lookup k := by
      intro k
      rw [loadFold_lookup decode (files.filter isImageFile) _ 0 k, hc1]
      cases hls : lastSet decode (files.filter isImageFile) k with
      | some t =>
        simp only [hls]
        rw [loadFold_lookup decode (files.filter isImageFile) [] 0 k]
        simp [hls]
      | none => simp only [hls]
    have hcache : ((files.filter isImageFile).foldl (loadStep decode)
          ((loadTemplates [] files decode).cache, 0)).1
        = ((files.filter isImageFile).foldl (loadStep decode) ([], 0)).1 :=
      assoc_ext _ _ keys2 (keys2 ▸ nodup1) hlook2
    constructor
    · rw [hc2, hcache, hc1]
    · rw [hn2, hcache, hn1]

/-- Concrete witness for `loadTemplates_idempotent`: a one-file catalog,
and the lazy-load guard on a scanner whose cache is already populated. -/
theorem loadTemplates_idempotent_witness :
    (loadTemplates (loadTemplates [] ["kappa.png"] (fun _ => some ⟨64, 64⟩)).cache
        ["kappa.png"] (fun _ => some ⟨64, 64⟩)).cache
      = (loadTemplates [] ["kappa.png"] (fun _ => some ⟨64, 64⟩)).cache
    ∧ (scanScreenRun ⟨[("kappa", ⟨64, 64⟩)], false⟩ wEnv).state.templatesCache
      = [("kappa", ⟨64, 64⟩)] := by
  refine ⟨(loadTemplates_idempotent ["kappa.png"] (fun _ => some ⟨64, 64⟩)).1.1, ?_⟩
  exact (loadTemplates_idempotent [] (fun _ => none)).2
    ⟨[("kappa", ⟨64, 64⟩)], false⟩ wEnv (by simp)

/-- If no decodable file in the list has base name `k`, nothing is recorded
for `k`. -/
theorem lastSet_eq_none (decode : String → Option TemplateEntry)
    (fs : List String) (k : String)
    (h : ∀ g ∈ fs, ∀ t, decode g = some t → baseId g ≠ k) :
    lastSet decode fs k = none := by
  induction fs with
  | nil => rfl
  | cons g fs ih =>
    have htail := ih (fun g' hg' t ht => h g' (List.mem_cons_of_mem g hg') t ht)
    simp only [lastSet, htail]
    rcases hdg : decode g with _ | t
    · simp
    · rw [if_neg (h g (List.mem_cons_self g fs) t hdg)]

/-- When base names of decodable files are pairwise distinct, a decodable
file's base name records exactly that file's decode. -/
theorem lastSet_eq_of_nodup (decode : String → Option TemplateEntry)
    (f : String) (t : TemplateEntry) (hd : decode f = some t) :
    ∀ fs : List String,
      ((fs.filter (fun g => (decode g).isSome)).map baseId).Nodup →
      f ∈ fs → lastSet decode fs (baseId f) = some t := by
  intro fs
  induction fs with
  | nil => intro _ hf; exact absurd hf (List.not_mem_nil f)
  | cons g fs ih =>
    intro hnd hf
    rcases hdg : decode g with _ | tg
    · have hfe : (g :: fs).filter (fun x => (decode x).isSome)
          = fs.filter (fun x => (decode x).isSome) := by
        rw [List.filter_cons]
        simp [hdg]
      rw [hfe] at hnd
      rcases List.mem_cons.1 hf with he | hmem
      · rw [he, hdg] at hd
        exact absurd hd (by simp)
      · have h' := ih hnd hmem
        simp [lastSet, h']
    · have hfe : (g :: fs).filter (fun x => (decode x).isSome)
          = g :: fs.filter (fun x => (decode x).isSome) := by
        rw [List.filter_cons]
        simp [hdg]
      rw [hfe, List.map_cons, List.nodup_cons] at hnd
      rcases List.mem_cons.1 hf with he | hmem
      · subst he
        have hnone : lastSet decode fs (baseId f) = none := by
          apply lastSet_eq_none
          intro g' hg' t' ht' heq
          refine hnd.1 ?_
          rw [← heq]
          exact List.mem_map_of_mem baseId
            (List.mem_filter.2 ⟨hg', by rw [ht']; rfl⟩)
        simp [lastSet, hnone, hd]
      · have h' := ih hnd.2 hmem
        simp [lastSet, h']

/-- With pairwise-distinct base names among decodable files, the keys added
on top of `ks` are exactly those base names, in order. -/
theorem newKeys_eq_of_nodup (decode : String → Option TemplateEntry)
    (fs : List String) :
    ∀ ks : List String,
      (∀ f ∈ fs, (decode f).isSome → baseId f ∉ ks) →
      ((fs.filter (fun f => (decode f).isSome)).map baseId).Nodup →
      newKeys decode ks fs = (fs.filter (fun f => (decode f).isSome)).map baseId := by
  induction fs with
  | nil => intro ks _ _; rfl
  | cons f fs ih =>
    intro ks hnotin hnd
    rcases hdf : decode f with _ | t
    · have hfe : (f :: fs).filter (fun g => (decode g).isSome)
          = fs.filter (fun g => (decode g).isSome) := by
        rw [List.filter_cons]
        simp [hdf]
      rw [hfe] at hnd ⊢
      simp only [newKeys, hdf]
      exact ih ks (fun g hg hgs => hnotin g (List.mem_cons_of_mem f hg) hgs) hnd
    · have hfe : (f :: fs).filter (fun g => (decode g).isSome)
          = f :: fs.filter (fun g => (decode g).isSome) := by
        rw [List.filter_cons]
        simp [hdf]
      have hmem : baseId f ∉ ks :=
        hnotin f (List.mem_cons_self f fs) (by rw [hdf]; rfl)
      rw [hfe, List.map_cons, List.nodup_cons] at hnd
      rw [hfe, List.map_cons]
      simp only [newKeys, hdf, hmem, if_false]
      congr 1
      refine ih (ks ++ [baseId f]) ?_ hnd.2
      intro g hg hgs hgmem
      rcases List.mem_append.1 hgmem with h' | h'
      · exact hnotin g (List.mem_cons_of_mem f hg) hgs h'
      · rw [List.mem_singleton] at h'
        refine hnd.1 ?_
        rw [← h']
        exact List.mem_map_of_mem baseId (List.mem_filter.2 ⟨hg, hgs⟩)

/-- C8 (amended): for a catalog directory whose decodable image files have
pairwise-distinct base names, the load stores exactly those N templates
(keyed by base name, each mapping to its own decode), logs one warning per
undecodable image file, continues past failures, and returns N. Without
the distinctness proviso two files such as `a.png` and `a.webp` collapse
onto one cache key (`loadTemplates_basename_collision`). -/
theorem loadTemplates_failure_tolerant (files : List String)
    (decode : String → Option TemplateEntry)
    (hnd : (((files.filter isImageFile).filter
        (fun f => (decode f).isSome)).map baseId).Nodup) :
    (loadTemplates [] files decode).count
      = ((files.filter isImageFile).filter (fun f => (decode f).isSome)).length
    ∧ (loadTemplates [] files decode).warnings
      = ((files.filter isImageFile).filter (fun f => (decode f).isNone)).length
    ∧ (loadTemplates [] files decode).cache.map Prod.fst
      = ((files.filter isImageFile).filter (fun f => (decode f).isSome)).map baseId
    ∧ ∀ f ∈ files.filter isImageFile, ∀ t, decode f = some t →
        (loadTemplates [] files decode).cache.lookup (baseId f) = some t := by
  by_cases himgs : (files.filter isImageFile).isEmpty = true
  · rw [List.isEmpty_iff] at himgs
    rw [himgs]
    simp [loadTemplates, himgs]
  · have hkeys : (loadTemplates [] files decode).cache.map Prod.fst
        = ((files.filter isImageFile).filter
            (fun f => (decode f).isSome)).map baseId := by
      have hc : (loadTemplates [] files decode).cache
          = ((files.filter isImageFile).foldl (loadStep decode) ([], 0)).1 := by
        simp [loadTemplates, himgs]
      rw [hc, loadFold_keys]
      simp only [List.map_nil, List.nil_append]
      exact newKeys_eq_of_nodup decode (files.filter isImageFile) []
        (fun f _ _ => List.not_mem_nil (baseId f)) hnd
    refine ⟨?_, ?_, hkeys, ?_⟩
    · have hn : (loadTemplates [] files decode).count
          = (loadTemplates [] files decode).cache.length := by
        simp [loadTemplates, himgs]
      rw [hn, ← List.length_map (loadTemplates [] files decode).cache Prod.fst,
        hkeys, List.length_map]
    · have hw : (loadTemplates [] files decode).warnings
          = ((files.filter isImageFile).foldl (loadStep decode) ([], 0)).2 := by
        simp [loadTemplates, himgs]
      rw [hw, loadFold_warnings]
      simp
    · intro f hf t ht
      have hc : (loadTemplates [] files decode).cache
          = ((files.filter isImageFile).foldl (loadStep decode) ([], 0)).1 := by
        simp [loadTemplates, himgs]
      rw [hc, loadFold_lookup]
      rw [lastSet_eq_of_nodup decode f t ht (files.filter isImageFile) hnd hf]

/-- Concrete witness for `loadTemplates_failure_tolerant`: a catalog with two
decodable files and one undecodable one loads 2 templates, warns once, and
keys them by base name. -/
theorem loadTemplates_failure_tolerant_witness :
    (loadTemplates [] ["a.png", "bad.png", "b.webp"]
        (fun f => if f = "bad.png" then none else some ⟨64, 64⟩)).count
      = ((["a.png", "bad.png", "b.webp"].filter isImageFile).filter
          (fun f => ((fun f => if f = "bad.png" then none
            else some (⟨64, 64⟩ : TemplateEntry)) f).isSome)).length
    ∧ (loadTemplates [] ["a.png", "bad.png", "b.webp"]
        (fun f => if f = "bad.png" then none else some ⟨64, 64⟩)).warnings
      = ((["a.png", "bad.png", "b.webp"].filter isImageFile).filter
          (fun f => ((fun f => if f = "bad.png" then none
            else some (⟨64, 64⟩ : TemplateEntry)) f).isNone)).length := by
  have h := loadTemplates_failure_tolerant ["a.png", "bad.png", "b.webp"]
    (fun f => if f = "bad.png" then none else some ⟨64, 64⟩) (by decide)
  exact ⟨h.1, h.2.1⟩

/-- C8 counterexample: a directory with the two decodable image files
`a.png` and `a.webp` (N = 2) loads only one template — both files share
the base name `a`, so the second `Map.set` overwrites the first — and the
call returns 1, not N. -/
theorem loadTemplates_basename_collision :
    (loadTemplates [] ["a.png", "a.webp"] (fun _ => some ⟨64, 64⟩)).count = 1
    ∧ (loadTemplates [] ["a.png", "a.webp"]
        (fun _ => some ⟨64, 64⟩)).cache.length = 1
    ∧ ((["a.png", "a.webp"].filter isImageFile).filter
        (fun f => ((fun _ => some (⟨64, 64⟩ : TemplateEntry)) f).isSome)).length = 2
    ∧ (1 : ℕ) ≠ 2 := by
  refine ⟨by decide, by decide, by decide, by decide⟩

end Trackov
